import Mathlib

/-!
Verification of the task-manager backend (`src/index.ts`), a single-file
Express CRUD service over an in-memory array of tasks.

The handlers are embedded shallowly: the mutable module-level array `tasks`
becomes an explicit `List Task` threaded through each handler, and effectful
inputs of the POST handler (`nanoid()`, `new Date().toISOString()`) become
explicit parameters `freshId` and `now`.  JavaScript string operations
(`trim`, `toLowerCase`, `includes`, `startsWith`) are modelled over the
character list of a Lean `String`; the tasks in this repository are ASCII, so
`Char.isWhitespace`/`Char.toLower` are adequate models of the JS behaviour.
-/

namespace TaskApi

/-- The TS union TaskCategory: Bug, Feature, Documentation, Refactor, Test. -/
inductive TaskCategory where
  | Bug | Feature | Documentation | Refactor | Test
  deriving DecidableEq, Repr

/-- The TS union TaskStatus: To Do, In Progress, Done. -/
inductive TaskStatus where
  | ToDo | InProgress | Done
  deriving DecidableEq, Repr

/-- The TS union TaskPriority: Low, Medium, High. -/
inductive TaskPriority where
  | Low | Medium | High
  deriving DecidableEq, Repr

/-- The `Task` interface of `src/index.ts` (`description?` is optional). -/
structure Task where
  id : String
  title : String
  description : Option String
  category : TaskCategory
  status : TaskStatus
  priority : TaskPriority
  createdAt : String
  deriving DecidableEq, Repr

/-! ## JavaScript string primitives, modelled over `List Char` -/

/-- Both-ends whitespace removal, the model of `String.prototype.trim`. -/
def trimChars (l : List Char) : List Char :=
  ((l.dropWhile Char.isWhitespace).reverse.dropWhile Char.isWhitespace).reverse

/-- Model of s.trim(). -/
def jsTrim (s : String) : String := ⟨trimChars s.data⟩

/-- Model of s.toLowerCase() (ASCII-adequate). -/
def jsToLower (s : String) : String := ⟨s.data.map Char.toLower⟩

/-- Tests whether the second list starts with the first (pattern) list; the model of String.prototype.startsWith. -/
def leadsWith : List Char → List Char → Bool
  | [], _ => true
  | _ :: _, [] => false
  | a :: as, b :: bs => a == b && leadsWith as bs

/-- Tests whether a list contains sub as a contiguous sublist; the model of String.prototype.includes. -/
def containsSub (sub : List Char) : List Char → Bool
  | [] => leadsWith sub []
  | l@(_ :: rest) => leadsWith sub l || containsSub sub rest

/-- Model of s.includes(sub). -/
def jsIncludes (s sub : String) : Bool := containsSub sub.data s.data

/-- Model of s.startsWith(p). -/
def jsStartsWith (s p : String) : Bool := leadsWith p.data s.data

/-! ## The seed collection (`let tasks: Task[] = [...]`) -/

def task1 : Task :=
  { id := "1", title := "Fix UI glitches"
    description := some "Resolve layout shift issues on the dashboard when switching themes."
    category := .Bug, status := .ToDo, priority := .Low
    createdAt := "2025-07-15T09:00:00Z" }

def task2 : Task :=
  { id := "2", title := "Add unit tests"
    description := some "Cover edge cases for the authentication module."
    category := .Feature, status := .ToDo, priority := .High
    createdAt := "2025-07-16T10:30:00Z" }

def task4 : Task :=
  { id := "4", title := "Refactor auth middleware"
    description := some "Improve code readability and separate concerns for easier testing."
    category := .Refactor, status := .Done, priority := .Medium
    createdAt := "2025-07-12T08:20:00Z" }

def task5 : Task :=
  { id := "5", title := "Fix login redirect bug"
    description := some "Users are not redirected properly after logging in."
    category := .Bug, status := .InProgress, priority := .Medium
    createdAt := "2025-07-17T11:10:00Z" }

def task7 : Task :=
  { id := "7", title := "Document CLI usage"
    description := some "Write user-facing documentation for the new CLI tool."
    category := .Documentation, status := .Done, priority := .Medium
    createdAt := "2025-07-10T15:40:00Z" }

def seedTasks : List Task := [task1, task2, task4, task5, task7]

/-- Placeholder for out-of-bounds `List.getD`; every use is guarded by a
successful `findTaskIdx`, which always yields an in-bounds index. -/
def defaultTask : Task :=
  { id := "", title := "", description := none
    category := .Bug, status := .ToDo, priority := .Low, createdAt := "" }

/-! ## Handlers -/

/-- Title filter of GET /tasks: when the title query parameter is a truthy
string, keep the tasks whose lowercased title contains the lowercased
parameter.  Here none models an absent (or non-string) query parameter; the
empty string is falsy in JS, so it also skips the filter. -/
def filterByTitle (ts : List Task) : Option String → List Task
  | none => ts
  | some s =>
      if s = "" then ts
      else ts.filter (fun t => jsIncludes (jsToLower t.title) (jsToLower s))

/-- Date filter of GET /tasks: when the date query parameter is a truthy
string, keep the tasks whose createdAt starts with it. -/
def filterByDate (ts : List Task) : Option String → List Task
  | none => ts
  | some d =>
      if d = "" then ts
      else ts.filter (fun t => jsStartsWith t.createdAt d)

/-- The GET /tasks handler: copy the collection, then apply the two filters. -/
def getTasks (ts : List Task) (title date : Option String) : List Task :=
  filterByDate (filterByTitle ts title) date

/-- Model of tasks.find(t => t.id === id). -/
def findTask (id : String) : List Task → Option Task
  | [] => none
  | t :: ts => if t.id = id then some t else findTask id ts

/-- Model of tasks.findIndex(t => t.id === id), with none for -1. -/
def findTaskIdx (id : String) : List Task → Option Nat
  | [] => none
  | t :: ts => if t.id = id then some 0 else (findTaskIdx id ts).map (· + 1)

/-- Response of `GET /tasks/:id`: an HTTP status and an optional task body. -/
structure GetResult where
  status : Nat
  task : Option Task
  deriving DecidableEq, Repr

/-- The GET /tasks/:id handler: 404 when absent, else 200 with the task. -/
def getTask (ts : List Task) (id : String) : GetResult :=
  match findTask id ts with
  | none => ⟨404, none⟩
  | some t => ⟨200, some t⟩

/-- The JSON body of `POST /tasks`; every field of
`Partial<Task>` destructured by the handler may be absent. -/
structure PostBody where
  title : Option String
  description : Option String
  category : Option TaskCategory
  status : Option TaskStatus
  priority : Option TaskPriority
  deriving DecidableEq, Repr

/-- Response of `POST /tasks`: status, optional created task, new collection. -/
structure PostResult where
  status : Nat
  task : Option Task
  tasks : List Task
  deriving DecidableEq, Repr

/-- The POST /tasks handler.  Here freshId stands for nanoid() and now for
new Date().toISOString().  The falsiness check !title rejects an absent title
and the empty string, !title.trim() rejects whitespace-only titles, and the
or-default on description replaces a falsy description with the empty
string. -/
def postTask (ts : List Task) (body : PostBody) (freshId now : String) : PostResult :=
  match body.title with
  | none => ⟨400, none, ts⟩
  | some title =>
    if title = "" then ⟨400, none, ts⟩
    else if jsTrim title = "" then ⟨400, none, ts⟩
    else
      match body.category, body.status, body.priority with
      | some c, some st, some p =>
        let newTask : Task :=
          { id := freshId, title := jsTrim title
            description := some (match body.description with
              | none => ""
              | some d => if d = "" then "" else d)
            category := c, status := st, priority := p, createdAt := now }
        ⟨201, some newTask, ts ++ [newTask]⟩
      | _, _, _ => ⟨400, none, ts⟩

/-- The JSON body of `PATCH /tasks/:id` (`Partial<Task>`): any subset of the
`Task` fields, `id` and `createdAt` included. -/
structure TaskUpdate where
  id : Option String
  title : Option String
  description : Option String
  category : Option TaskCategory
  status : Option TaskStatus
  priority : Option TaskPriority
  createdAt : Option String
  deriving DecidableEq, Repr

/-- The object spread `{ ...task, ...updates }`: every field present in
`updates` overrides the stored one, absent fields are left untouched. -/
def mergeTask (t : Task) (u : TaskUpdate) : Task :=
  { id := u.id.getD t.id
    title := u.title.getD t.title
    description := match u.description with
      | none => t.description
      | some d => some d
    category := u.category.getD t.category
    status := u.status.getD t.status
    priority := u.priority.getD t.priority
    createdAt := u.createdAt.getD t.createdAt }

/-- The check updates.title !== undefined && !updates.title.trim(). -/
def titleBad (u : TaskUpdate) : Bool :=
  match u.title with
  | none => false
  | some t => jsTrim t == ""

/-- Response of `PATCH /tasks/:id`. -/
structure PatchResult where
  status : Nat
  task : Option Task
  tasks : List Task
  deriving DecidableEq, Repr

/-- The PATCH /tasks/:id handler: 404 when the id is absent, 400 when a
supplied title is empty after trimming, else replace the found slot with the
merged task. -/
def patchTask (ts : List Task) (id : String) (u : TaskUpdate) : PatchResult :=
  match findTaskIdx id ts with
  | none => ⟨404, none, ts⟩
  | some i =>
    if titleBad u then ⟨400, none, ts⟩
    else
      let merged := mergeTask (ts.getD i defaultTask) u
      ⟨200, some merged, ts.set i merged⟩

/-- Response of `DELETE /tasks/:id`. -/
structure DeleteResult where
  status : Nat
  tasks : List Task
  deriving DecidableEq, Repr

/-- The DELETE /tasks/:id handler: 404 when absent, else tasks.splice(i, 1). -/
def deleteTask (ts : List Task) (id : String) : DeleteResult :=
  match findTaskIdx id ts with
  | none => ⟨404, ts⟩
  | some i => ⟨204, ts.eraseIdx i⟩

/-! ## Sequences of mutating operations, for the reachability invariants -/

/-- One mutating request: POST (with its effectful inputs made explicit),
PATCH, or DELETE. -/
inductive Op where
  | create (body : PostBody) (freshId now : String)
  | update (id : String) (u : TaskUpdate)
  | delete (id : String)
  deriving DecidableEq

/-- The collection after one request. -/
def applyOp (ts : List Task) : Op → List Task
  | .create b fid now => (postTask ts b fid now).tasks
  | .update id u => (patchTask ts id u).tasks
  | .delete id => (deleteTask ts id).tasks

/-- The collection after a sequence of requests. -/
def runOps (ts : List Task) : List Op → List Task
  | [] => ts
  | op :: ops => runOps (applyOp ts op) ops

/-! ## Lemmas about the find helpers -/

theorem findTask_eq_none {id : String} {ts : List Task}
    (h : id ∉ ts.map Task.id) : findTask id ts = none := by
  induction ts with
  | nil => rfl
  | cons t rest ih =>
    simp only [List.map_cons, List.mem_cons, not_or] at h
    simp [findTask, Ne.symm h.1, ih h.2]

theorem findTaskIdx_eq_none {id : String} {ts : List Task}
    (h : id ∉ ts.map Task.id) : findTaskIdx id ts = none := by
  induction ts with
  | nil => rfl
  | cons t rest ih =>
    simp only [List.map_cons, List.mem_cons, not_or] at h
    simp [findTaskIdx, Ne.symm h.1, ih h.2]

theorem findTaskIdx_of_mem {id : String} {ts : List Task}
    (h : id ∈ ts.map Task.id) : ∃ i, findTaskIdx id ts = some i := by
  induction ts with
  | nil => cases h
  | cons t rest ih =>
    by_cases hid : t.id = id
    · exact ⟨0, by simp [findTaskIdx, hid]⟩
    · have hmem : id ∈ rest.map Task.id := by
        rcases List.mem_cons.mp h with h1 | h1
        · exact absurd h1.symm hid
        · exact h1
      obtain ⟨i, hi⟩ := ih hmem
      exact ⟨i + 1, by simp [findTaskIdx, hid, hi]⟩

/-- With pairwise distinct ids, looking up a stored task's id finds exactly
that task. -/
theorem findTaskIdx_nodup_getD {ts : List Task} {t : Task}
    (hn : (ts.map Task.id).Nodup) (ht : t ∈ ts) :
    ∃ i, findTaskIdx t.id ts = some i ∧ ts.getD i defaultTask = t := by
  induction ts with
  | nil => cases ht
  | cons a rest ih =>
    rw [List.map_cons, List.nodup_cons] at hn
    rcases List.mem_cons.mp ht with rfl | hmem
    · exact ⟨0, by simp [findTaskIdx], rfl⟩
    · by_cases hid : a.id = t.id
      · exact absurd (hid ▸ List.mem_map_of_mem Task.id hmem) hn.1
      · obtain ⟨i, hfind, hget⟩ := ih hn.2 hmem
        exact ⟨i + 1, by simp [findTaskIdx, hid, hfind], by simpa using hget⟩

/-! ## Lemmas about the JS string models -/

theorem mem_dropWhile_ws {c : Char} {l : List Char} (hc : c ∈ l)
    (hw : c.isWhitespace = false) : c ∈ l.dropWhile Char.isWhitespace := by
  have hl := List.takeWhile_append_dropWhile Char.isWhitespace l
  rw [← hl] at hc
  rcases List.mem_append.mp hc with h | h
  · exact absurd (List.mem_takeWhile_imp h) (by simp [hw])
  · exact h

/-- Trimming removes only whitespace characters. -/
theorem mem_trimChars {c : Char} {l : List Char} (hc : c ∈ l)
    (hw : c.isWhitespace = false) : c ∈ trimChars l := by
  unfold trimChars
  exact List.mem_reverse.mpr
    (mem_dropWhile_ws (List.mem_reverse.mpr (mem_dropWhile_ws hc hw)) hw)

theorem trimChars_nil_of_ws {l : List Char} (h : ∀ c ∈ l, c.isWhitespace = true) :
    trimChars l = [] := by
  unfold trimChars
  rw [List.dropWhile_eq_nil_iff.mpr h]
  simp

/-- A string that survives one trim also survives a second one. -/
theorem trimChars_trimChars_ne_nil {l : List Char} (h : trimChars l ≠ []) :
    trimChars (trimChars l) ≠ [] := by
  have hex : ∃ c ∈ l, c.isWhitespace = false := by
    by_contra hall
    push_neg at hall
    refine h (trimChars_nil_of_ws fun c hc => ?_)
    simpa using hall c hc
  obtain ⟨c, hc, hw⟩ := hex
  have h2 : c ∈ trimChars (trimChars l) := mem_trimChars (mem_trimChars hc hw) hw
  intro hnil
  rw [hnil] at h2
  cases h2

theorem jsTrim_eq_empty_iff (s : String) : jsTrim s = "" ↔ trimChars s.data = [] := by
  constructor
  · intro h
    have := congrArg String.data h
    simpa [jsTrim] using this
  · intro h
    apply String.ext
    simpa [jsTrim] using h

theorem jsTrim_jsTrim_ne {s : String} (h : jsTrim s ≠ "") : jsTrim (jsTrim s) ≠ "" := by
  rw [Ne, jsTrim_eq_empty_iff] at h ⊢
  exact trimChars_trimChars_ne_nil h

theorem leadsWith_nil (l : List Char) : leadsWith [] l = true := by
  cases l <;> rfl

theorem containsSub_nil (l : List Char) : containsSub [] l = true := by
  induction l with
  | nil => rfl
  | cons c rest ih => simp [containsSub, leadsWith_nil, ih]

/-- Every string contains the empty substring, so skipping the filter on an
empty query parameter returns the same tasks the filter itself would. -/
theorem jsIncludes_empty (s : String) : jsIncludes s "" = true :=
  containsSub_nil s.data

theorem jsStartsWith_empty (s : String) : jsStartsWith s "" = true :=
  leadsWith_nil s.data

theorem jsToLower_empty : jsToLower "" = "" := rfl

/-! ## Claim C3: POST with a missing/blank title -/

/-- C3: for every collection state and every POST request whose title is
absent, empty, or whitespace-only, the response status is 400 and the stored
collection is unchanged. -/
theorem post_blank_title_rejected (ts : List Task) (body : PostBody) (freshId now : String)
    (h : body.title = none ∨ body.title = some "" ∨
         ∃ s, body.title = some s ∧ jsTrim s = "") :
    (postTask ts body freshId now).status = 400 ∧
    (postTask ts body freshId now).tasks = ts := by
  rcases h with h | h | ⟨s, h, hs⟩
  · simp [postTask, h]
  · simp [postTask, h]
  · by_cases hse : s = ""
    · simp [postTask, h, hse]
    · simp [postTask, h, hse, hs]

theorem post_blank_title_rejected_witness :
    (postTask seedTasks ⟨some "   ", none, some .Bug, some .ToDo, some .Low⟩ "z9" "now").status = 400 ∧
    (postTask seedTasks ⟨some "   ", none, some .Bug, some .ToDo, some .Low⟩ "z9" "now").tasks = seedTasks :=
  post_blank_title_rejected seedTasks ⟨some "   ", none, some .Bug, some .ToDo, some .Low⟩
    "z9" "now" (Or.inr (Or.inr ⟨"   ", rfl, by decide⟩))

/-! ## Claim C5: the case-insensitive title filter -/

/-- C5: `GET /tasks?title=s` returns exactly the stored tasks whose lowercased
title contains the lowercased `s`, i.e. the result is the filter of the
collection by that predicate, and membership in the result is equivalent to
being a stored task satisfying it. -/
theorem get_tasks_title_filter (ts : List Task) (s : String) :
    getTasks ts (some s) none =
      ts.filter (fun t => jsIncludes (jsToLower t.title) (jsToLower s)) ∧
    ∀ t, t ∈ getTasks ts (some s) none ↔
      t ∈ ts ∧ jsIncludes (jsToLower t.title) (jsToLower s) = true := by
  have hmain : getTasks ts (some s) none =
      ts.filter (fun t => jsIncludes (jsToLower t.title) (jsToLower s)) := by
    by_cases hs : s = ""
    · subst hs
      show ts = ts.filter fun t => jsIncludes (jsToLower t.title) (jsToLower "")
      symm
      rw [List.filter_eq_self]
      intro t _
      rw [jsToLower_empty]
      exact jsIncludes_empty _
    · simp [getTasks, filterByTitle, filterByDate, hs]
  exact ⟨hmain, fun t => by rw [hmain, List.mem_filter]⟩

/-! ## Claim C6: the unfiltered listing and the date-prefix filter -/

/-- C6: `GET /tasks` with no filter returns the whole collection in storage
order, and with a date parameter returns, in storage order, exactly the tasks
whose `createdAt` starts with the given ISO prefix. -/
theorem get_tasks_date_filter (ts : List Task) :
    getTasks ts none none = ts ∧
    ∀ d, getTasks ts none (some d) =
      ts.filter (fun t => jsStartsWith t.createdAt d) := by
  refine ⟨rfl, fun d => ?_⟩
  by_cases hd : d = ""
  · subst hd
    show ts = ts.filter fun t => jsStartsWith t.createdAt ""
    symm
    rw [List.filter_eq_self]
    intro t _
    exact jsStartsWith_empty _
  · simp [getTasks, filterByTitle, filterByDate, hd]

/-! ## Claim C7: PATCH on an absent id -/

/-- C7: a PATCH on an id not present in the collection returns 404 and leaves
the stored collection unchanged. -/
theorem patch_absent_id (ts : List Task) (id : String) (u : TaskUpdate)
    (h : id ∉ ts.map Task.id) :
    patchTask ts id u = ⟨404, none, ts⟩ := by
  unfold patchTask
  rw [findTaskIdx_eq_none h]

theorem patch_absent_id_witness :
    patchTask seedTasks "3" ⟨none, some "New title", none, none, none, none, none⟩ =
      ⟨404, none, seedTasks⟩ :=
  patch_absent_id seedTasks "3" ⟨none, some "New title", none, none, none, none, none⟩
    (by decide)

/-! ## Claim C10: POST always stores a string description and a trimmed title -/

/-- C10: every task created by a successful POST has a string `description`:
when the body's description is absent or empty (falsy), the stored description
is the empty string, and the stored title is the trimmed supplied title. -/
theorem post_description_defaulted (ts : List Task) (body : PostBody) (freshId now : String)
    (t : Task) (ht : (postTask ts body freshId now).task = some t) :
    (∃ d, t.description = some d) ∧
    ((body.description = none ∨ body.description = some "") → t.description = some "") ∧
    (∀ s, body.title = some s → t.title = jsTrim s) := by
  rcases hbt : body.title with _ | title0
  · simp [postTask, hbt] at ht
  · by_cases h0 : title0 = ""
    · simp [postTask, hbt, h0] at ht
    · by_cases h1 : jsTrim title0 = ""
      · simp [postTask, hbt, h0, h1] at ht
      · rcases hbc : body.category with _ | c
        · simp [postTask, hbt, h0, h1, hbc] at ht
        · rcases hbs : body.status with _ | st
          · simp [postTask, hbt, h0, h1, hbc, hbs] at ht
          · rcases hbp : body.priority with _ | p
            · simp [postTask, hbt, h0, h1, hbc, hbs, hbp] at ht
            · simp only [postTask, hbt, h0, h1, hbc, hbs, hbp, if_neg, if_false,
                Option.some.injEq] at ht
              subst ht
              refine ⟨⟨_, rfl⟩, fun hd => ?_, fun s hs => ?_⟩
              · rcases hd with hd | hd <;> simp [hd]
              · cases hs
                rfl

theorem post_description_defaulted_witness :
    ((postTask seedTasks ⟨some " Ship it ", none, some .Feature, some .ToDo, some .High⟩
        "z9" "2025-08-01T00:00:00Z").task.map Task.description = some (some "")) ∧
    ((postTask seedTasks ⟨some " Ship it ", none, some .Feature, some .ToDo, some .High⟩
        "z9" "2025-08-01T00:00:00Z").task.map Task.title = some "Ship it") := by
  have h := post_description_defaulted seedTasks
    ⟨some " Ship it ", none, some .Feature, some .ToDo, some .High⟩ "z9" "2025-08-01T00:00:00Z"
    { id := "z9", title := "Ship it", description := some "", category := .Feature,
      status := .ToDo, priority := .High, createdAt := "2025-08-01T00:00:00Z" }
    (by decide)
  refine ⟨?_, ?_⟩
  · have := h.2.1 (Or.inl rfl)
    decide
  · have := h.2.2 " Ship it " rfl
    decide

/-- Unfolding of `patchTask` once the id lookup has succeeded. -/
theorem patchTask_found {ts : List Task} {id : String} {u : TaskUpdate} {i : Nat}
    (hf : findTaskIdx id ts = some i) :
    patchTask ts id u =
      if titleBad u then ⟨400, none, ts⟩
      else ⟨200, some (mergeTask (ts.getD i defaultTask) u),
            ts.set i (mergeTask (ts.getD i defaultTask) u)⟩ := by
  unfold patchTask
  rw [hf]

/-! ## Claim C4: PATCH with only a status change is frame-preserving -/

/-- C4: for every stored task, a PATCH on its id whose body supplies only the
`status` field returns that task with the new status and every other field
(id, title, description, category, priority, createdAt) unchanged. -/
theorem patch_status_only (ts : List Task) (t : Task) (st : TaskStatus)
    (hn : (ts.map Task.id).Nodup) (ht : t ∈ ts) :
    (patchTask ts t.id ⟨none, none, none, none, some st, none, none⟩).status = 200 ∧
    (patchTask ts t.id ⟨none, none, none, none, some st, none, none⟩).task =
      some { id := t.id, title := t.title, description := t.description,
             category := t.category, status := st, priority := t.priority,
             createdAt := t.createdAt } := by
  obtain ⟨i, hf, hg⟩ := findTaskIdx_nodup_getD hn ht
  rw [patchTask_found hf, hg]
  constructor <;> simp [titleBad, mergeTask]

theorem patch_status_only_witness :
    (patchTask seedTasks task1.id ⟨none, none, none, none, some TaskStatus.Done, none, none⟩).status = 200 ∧
    (patchTask seedTasks task1.id ⟨none, none, none, none, some TaskStatus.Done, none, none⟩).task =
      some { id := task1.id, title := task1.title, description := task1.description,
             category := task1.category, status := TaskStatus.Done,
             priority := task1.priority, createdAt := task1.createdAt } :=
  patch_status_only seedTasks task1 .Done (by decide) (by decide)

/-! ## Claim C8: DELETE then GET on the same id -/

/-- Removing the found index of `id` from a collection with pairwise distinct
ids leaves no task with that id. -/
theorem findTask_eraseIdx_nodup {ts : List Task} {id : String} {i : Nat}
    (hn : (ts.map Task.id).Nodup) (hf : findTaskIdx id ts = some i) :
    findTask id (ts.eraseIdx i) = none := by
  induction ts generalizing i with
  | nil => cases hf
  | cons a rest ih =>
    rw [List.map_cons, List.nodup_cons] at hn
    by_cases hid : a.id = id
    · have h0 : i = 0 := by
        have := hf
        simp [findTaskIdx, hid] at this
        exact this.symm
      subst h0
      show findTask id rest = none
      apply findTask_eq_none
      rw [← hid]
      exact hn.1
    · have hf' : (findTaskIdx id rest).map (· + 1) = some i := by
        simpa [findTaskIdx, hid] using hf
      rcases hmap : findTaskIdx id rest with _ | j
      · rw [hmap] at hf'
        cases hf'
      · rw [hmap] at hf'
        simp only [Option.map_some', Option.some.injEq] at hf'
        subst hf'
        show findTask id (a :: rest.eraseIdx j) = none
        simp [findTask, hid, ih hn.2 hmap]

/-- C8: in a collection with pairwise distinct ids, a DELETE on a present id
followed by a GET on the same id yields a 404 response from the GET. -/
theorem delete_then_get_404 (ts : List Task) (id : String)
    (hn : (ts.map Task.id).Nodup) (hmem : id ∈ ts.map Task.id) :
    getTask (deleteTask ts id).tasks id = ⟨404, none⟩ := by
  obtain ⟨i, hf⟩ := findTaskIdx_of_mem hmem
  have hdel : (deleteTask ts id).tasks = ts.eraseIdx i := by
    unfold deleteTask
    rw [hf]
  rw [hdel]
  unfold getTask
  rw [findTask_eraseIdx_nodup hn hf]

theorem delete_then_get_404_witness :
    getTask (deleteTask seedTasks "1").tasks "1" = ⟨404, none⟩ :=
  delete_then_get_404 seedTasks "1" (by decide) (by decide)

/-! ## Claim C1: PATCH does not in fact protect `id` and `createdAt` -/

/-- A PATCH body that supplies new `id` and `createdAt` values. -/
def overrideUpdate : TaskUpdate :=
  ⟨some "99", none, none, none, none, none, some "2000-01-01T00:00:00Z"⟩

/-- C1 counterexample: the spread `{ ...task, ...updates }` lets the request
body overwrite `id` and `createdAt`: patching seed task "1" with a body
carrying `id := "99"` and a new `createdAt` yields a merged task whose id and
createdAt are the body's values, not the stored ones. -/
theorem patch_overrides_id_createdAt :
    (patchTask seedTasks "1" overrideUpdate).task.map Task.id = some "99" ∧
    (patchTask seedTasks "1" overrideUpdate).task.map Task.createdAt =
      some "2000-01-01T00:00:00Z" ∧
    ¬((patchTask seedTasks "1" overrideUpdate).task.map Task.id = some "1" ∧
      (patchTask seedTasks "1" overrideUpdate).task.map Task.createdAt =
        some "2025-07-15T09:00:00Z") := by
  decide

/-- C1 amended: the merged task of a successful PATCH keeps the stored task's
`id` and `createdAt` provided the request body supplies neither field. -/
theorem patch_preserves_id_createdAt (ts : List Task) (id : String) (u : TaskUpdate)
    (i : Nat) (m : Task)
    (hf : findTaskIdx id ts = some i)
    (hid : u.id = none) (hca : u.createdAt = none)
    (hm : (patchTask ts id u).task = some m) :
    m.id = (ts.getD i defaultTask).id ∧
    m.createdAt = (ts.getD i defaultTask).createdAt := by
  rw [patchTask_found hf] at hm
  by_cases htb : titleBad u = true
  · rw [if_pos htb] at hm
    cases hm
  · rw [if_neg htb] at hm
    have hm' : some (mergeTask (ts.getD i defaultTask) u) = some m := hm
    cases hm'
    simp [mergeTask, hid, hca]

theorem patch_preserves_id_createdAt_witness :
    ({ task1 with title := "Better title" } : Task).id =
      (seedTasks.getD 0 defaultTask).id ∧
    ({ task1 with title := "Better title" } : Task).createdAt =
      (seedTasks.getD 0 defaultTask).createdAt :=
  patch_preserves_id_createdAt seedTasks "1"
    ⟨none, some "Better title", none, none, none, none, none⟩ 0
    { task1 with title := "Better title" }
    (by decide) rfl rfl (by decide)

/-! ## Claim C2: id uniqueness across reachable states -/

theorem nodup_append_singleton {a : String} {l : List String}
    (hn : l.Nodup) (ha : a ∉ l) : (l ++ [a]).Nodup := by
  induction l with
  | nil => simp
  | cons x xs ih =>
    rw [List.nodup_cons] at hn
    simp only [List.mem_cons, not_or] at ha
    rw [List.cons_append, List.nodup_cons]
    refine ⟨?_, ih hn.2 ha.2⟩
    intro hmem
    rcases List.mem_append.mp hmem with h | h
    · exact hn.1 h
    · simp only [List.mem_singleton] at h
      exact ha.1 h.symm

/-- A POST given a fresh id preserves distinctness of the stored ids. -/
theorem post_ids_nodup {ts : List Task} {b : PostBody} {fid now : String}
    (hfresh : fid ∉ ts.map Task.id) (hn : (ts.map Task.id).Nodup) :
    (((postTask ts b fid now).tasks).map Task.id).Nodup := by
  rcases hbt : b.title with _ | title0
  · simpa [postTask, hbt] using hn
  · by_cases h0 : title0 = ""
    · simpa [postTask, hbt, h0] using hn
    · by_cases h1 : jsTrim title0 = ""
      · simpa [postTask, hbt, h0, h1] using hn
      · rcases hbc : b.category with _ | c
        · simpa [postTask, hbt, h0, h1, hbc] using hn
        · rcases hbs : b.status with _ | st
          · simpa [postTask, hbt, h0, h1, hbc, hbs] using hn
          · rcases hbp : b.priority with _ | p
            · simpa [postTask, hbt, h0, h1, hbc, hbs, hbp] using hn
            · simp only [postTask, hbt, h0, h1, hbc, hbs, hbp, if_neg, if_false,
                List.map_append, List.map_cons, List.map_nil]
              exact nodup_append_singleton hn hfresh

/-- Replacing a slot with the merge of its own content and an update that does
not supply `id` leaves the list of stored ids unchanged. -/
theorem ids_set_merge (ts : List Task) (i : Nat) (u : TaskUpdate) (hid : u.id = none) :
    (ts.set i (mergeTask (ts.getD i defaultTask) u)).map Task.id = ts.map Task.id := by
  induction ts generalizing i with
  | nil => simp
  | cons t rest ih =>
    cases i with
    | zero =>
      simp only [List.getD_cons_zero, List.set_cons_zero, List.map_cons]
      congr 1
      simp [mergeTask, hid]
    | succ n =>
      simp only [List.getD_cons_succ, List.set_cons_succ, List.map_cons]
      rw [ih n]

/-- A PATCH whose body does not supply `id` preserves distinctness. -/
theorem patch_ids_nodup {ts : List Task} {id : String} {u : TaskUpdate}
    (hid : u.id = none) (hn : (ts.map Task.id).Nodup) :
    (((patchTask ts id u).tasks).map Task.id).Nodup := by
  rcases hf : findTaskIdx id ts with _ | i
  · unfold patchTask
    rw [hf]
    exact hn
  · rw [patchTask_found hf]
    by_cases htb : titleBad u = true
    · rw [if_pos htb]
      exact hn
    · rw [if_neg htb]
      show ((ts.set i (mergeTask (ts.getD i defaultTask) u)).map Task.id).Nodup
      rw [ids_set_merge ts i u hid]
      exact hn

/-- A DELETE preserves distinctness. -/
theorem delete_ids_nodup {ts : List Task} {id : String}
    (hn : (ts.map Task.id).Nodup) :
    (((deleteTask ts id).tasks).map Task.id).Nodup := by
  rcases hf : findTaskIdx id ts with _ | i
  · unfold deleteTask
    rw [hf]
    exact hn
  · unfold deleteTask
    rw [hf]
    show ((ts.eraseIdx i).map Task.id).Nodup
    exact List.Nodup.sublist ((List.eraseIdx_sublist ts i).map Task.id) hn

/-- Side conditions under which the mutating requests keep ids distinct: a
POST's generated id must not already be stored (this is what `nanoid()` is
relied upon for) and a PATCH body must not supply the `id` field. -/
def opOk (ts : List Task) : Op → Prop
  | .create _ fid _ => fid ∉ ts.map Task.id
  | .update _ u => u.id = none
  | .delete _ => True

/-- Each operation of the sequence satisfies its side condition in the state
it is applied to. -/
def runOk : List Task → List Op → Prop
  | _, [] => True
  | ts, op :: ops => opOk ts op ∧ runOk (applyOp ts op) ops

theorem runOps_ids_nodup {ts : List Task} {ops : List Op}
    (hn : (ts.map Task.id).Nodup) (hok : runOk ts ops) :
    ((runOps ts ops).map Task.id).Nodup := by
  induction ops generalizing ts with
  | nil => exact hn
  | cons op rest ih =>
    obtain ⟨hop, hrest⟩ := hok
    refine ih ?_ hrest
    cases op with
    | create b fid now => exact post_ids_nodup hop hn
    | update id u => exact patch_ids_nodup hop hn
    | delete id => exact delete_ids_nodup hn

/-- C2 counterexample: the claim as stated is false — a PATCH on seed task "1"
whose body supplies `id := "2"` reaches a state in which two stored tasks have
the id "2". -/
theorem reachable_duplicate_ids :
    ¬ ((runOps seedTasks
        [Op.update "1" ⟨some "2", none, none, none, none, none, none⟩]).map Task.id).Nodup := by
  decide

/-- C2 amended: in every state reachable from the seed state by Create,
Update and Delete operations in which each Create is assigned an id not
already stored and no Update body supplies the `id` field, the stored task
ids are pairwise distinct. -/
theorem reachable_ids_nodup (ops : List Op) (hok : runOk seedTasks ops) :
    ((runOps seedTasks ops).map Task.id).Nodup :=
  runOps_ids_nodup (by decide) hok

theorem reachable_ids_nodup_witness :
    ((runOps seedTasks [Op.delete "1"]).map Task.id).Nodup :=
  reachable_ids_nodup [Op.delete "1"] ⟨trivial, trivial⟩

/-! ## Claim C9: every reachable stored title is non-blank after trimming -/

/-- The title part of the data-model invariant. -/
def titlesOk (ts : List Task) : Prop := ∀ t ∈ ts, jsTrim t.title ≠ ""

/-- The index found for `id` is in bounds, so the `getD` reads a stored task. -/
theorem getD_mem_of_findTaskIdx {ts : List Task} {id : String} {i : Nat}
    (hf : findTaskIdx id ts = some i) : ts.getD i defaultTask ∈ ts := by
  induction ts generalizing i with
  | nil => cases hf
  | cons a rest ih =>
    by_cases hid : a.id = id
    · have h0 : i = 0 := by
        have := hf
        simp [findTaskIdx, hid] at this
        exact this.symm
      subst h0
      simp
    · have hf' : (findTaskIdx id rest).map (· + 1) = some i := by
        simpa [findTaskIdx, hid] using hf
      rcases hmap : findTaskIdx id rest with _ | j
      · rw [hmap] at hf'
        cases hf'
      · rw [hmap] at hf'
        simp only [Option.map_some', Option.some.injEq] at hf'
        subst hf'
        simp only [List.getD_cons_succ]
        exact List.mem_cons_of_mem a (ih hmap)

/-- POST preserves the title invariant: the created task stores the trimmed
title, which the guard has checked is non-blank. -/
theorem post_titles_ok {ts : List Task} {b : PostBody} {fid now : String}
    (h : titlesOk ts) : titlesOk (postTask ts b fid now).tasks := by
  rcases hbt : b.title with _ | title0
  · simpa [postTask, hbt] using h
  · by_cases h0 : title0 = ""
    · simpa [postTask, hbt, h0] using h
    · by_cases h1 : jsTrim title0 = ""
      · simpa [postTask, hbt, h0, h1] using h
      · rcases hbc : b.category with _ | c
        · simpa [postTask, hbt, h0, h1, hbc] using h
        · rcases hbs : b.status with _ | st
          · simpa [postTask, hbt, h0, h1, hbc, hbs] using h
          · rcases hbp : b.priority with _ | p
            · simpa [postTask, hbt, h0, h1, hbc, hbs, hbp] using h
            · simp only [postTask, hbt, hbc, hbs, hbp]
              rw [if_neg h0, if_neg h1]
              intro t ht
              rcases List.mem_append.mp ht with hmem | hmem
              · exact h t hmem
              · simp only [List.mem_singleton] at hmem
                subst hmem
                exact jsTrim_jsTrim_ne h1

/-- PATCH preserves the title invariant: a supplied title has passed the
non-blank check, an unsupplied one is the stored (already valid) title. -/
theorem patch_titles_ok {ts : List Task} {id : String} {u : TaskUpdate}
    (h : titlesOk ts) : titlesOk (patchTask ts id u).tasks := by
  rcases hf : findTaskIdx id ts with _ | i
  · unfold patchTask
    rw [hf]
    exact h
  · rw [patchTask_found hf]
    by_cases htb : titleBad u = true
    · rw [if_pos htb]
      exact h
    · rw [if_neg htb]
      intro t ht
      rcases List.mem_or_eq_of_mem_set ht with hmem | rfl
      · exact h t hmem
      · rcases hut : u.title with _ | s
        · have heq : (mergeTask (ts.getD i defaultTask) u).title =
              (ts.getD i defaultTask).title := by
            simp [mergeTask, hut]
          rw [heq]
          exact h _ (getD_mem_of_findTaskIdx hf)
        · have heq : (mergeTask (ts.getD i defaultTask) u).title = s := by
            simp [mergeTask, hut]
          rw [heq]
          intro hcontra
          apply htb
          simp [titleBad, hut, hcontra]

/-- DELETE preserves the title invariant. -/
theorem delete_titles_ok {ts : List Task} {id : String}
    (h : titlesOk ts) : titlesOk (deleteTask ts id).tasks := by
  rcases hf : findTaskIdx id ts with _ | i
  · unfold deleteTask
    rw [hf]
    exact h
  · unfold deleteTask
    rw [hf]
    intro t ht
    exact h t (List.Sublist.mem ht (List.eraseIdx_sublist ts i))

theorem runOps_titles_ok {ts : List Task} {ops : List Op}
    (h : titlesOk ts) : titlesOk (runOps ts ops) := by
  induction ops generalizing ts with
  | nil => exact h
  | cons op rest ih =>
    refine ih ?_
    cases op with
    | create b fid now => exact post_titles_ok h
    | update id u => exact patch_titles_ok h
    | delete id => exact delete_titles_ok h

/-- The seed records satisfy the title invariant. -/
theorem seed_titles_ok : titlesOk seedTasks := by
  intro t ht
  have hall : ∀ x ∈ seedTasks, jsTrim x.title ≠ "" := by decide
  exact hall t ht

/-- C9: in every collection state reachable from the seed state by any
sequence of Create, Update and Delete operations, every stored task's title is
non-empty after trimming whitespace. -/
theorem reachable_titles_nonblank (ops : List Op) (t : Task)
    (ht : t ∈ runOps seedTasks ops) : jsTrim t.title ≠ "" :=
  runOps_titles_ok seed_titles_ok t ht

theorem reachable_titles_nonblank_witness : jsTrim task1.title ≠ "" :=
  reachable_titles_nonblank [] task1 (by decide)

end TaskApi
